import Mathlib

/-
Verification development for the idock pose-search core.

Shallow embedding of the C++ sources into Lean 4:
  * src/receptor.cpp            — receptor construction from a PDBQT atom stream
  * src/scoring_function.cpp    — tabulated pairwise potential
  * src/monte_carlo_task.cpp    — Monte Carlo / BFGS search driver
  * result.hpp                  — result type and the diversity result container

Floating-point numbers are idealised as rationals (ℚ); machine loops are
embedded as structural recursions or folds.  Code of the repository that is
referenced but not part of the given sources (atom.hpp helpers, the math
primitives qtn4/vec3, the ligand evaluator) is kept abstract: it enters as
explicit function parameters, so every theorem quantifies over it.
-/

/-! ### Basic vector type (vec3 of array.hpp, components only) -/

/-- A 3-vector of rationals, standing for the C++ `vec3` of three doubles. -/
structure V3 where
  x : ℚ
  y : ℚ
  z : ℚ
deriving DecidableEq

instance : Add V3 := ⟨fun a b => ⟨a.x + b.x, a.y + b.y, a.z + b.z⟩⟩

instance : Sub V3 := ⟨fun a b => ⟨a.x - b.x, a.y - b.y, a.z - b.z⟩⟩

instance : SMul ℚ V3 := ⟨fun c v => ⟨c * v.x, c * v.y, c * v.z⟩⟩

/-- Squared Euclidean distance between two points (`distance_sqr` of array.hpp). -/
def V3.distSqr (a b : V3) : ℚ :=
  (a.x - b.x) * (a.x - b.x) + (a.y - b.y) * (a.y - b.y) + (a.z - b.z) * (a.z - b.z)

/-! ### Receptor construction (src/receptor.cpp)

The AD type table lives in atom.hpp, which is not among the given sources; the
receptor code only ever compares a parsed type against `AD_TYPE_H`,
`AD_TYPE_HD` and `AD_TYPE_SIZE`, so the numeric codes below are arbitrary
distinct values.  `parse_ad_type_string` is likewise external: an input line of
the embedding carries the already-parsed code, with `AD_TYPE_SIZE` standing for
"not in the table". -/

/-- Modelled from the spec: AD type code of a non-polar hydrogen (atom.hpp is
not under src/). -/
def AD_TYPE_H : Nat := 0

/-- Modelled from the spec: AD type code of a polar hydrogen (atom.hpp is not
under src/). -/
def AD_TYPE_HD : Nat := 1

/-- Modelled from the spec: number of AD types; `parse_ad_type_string` returns
this value for a string not in the table (atom.hpp is not under src/). -/
def AD_TYPE_SIZE : Nat := 26

/-- A receptor atom as stored in `receptor::atoms`: serial, name, coordinate,
AD type, plus the two mutable flags touched by the constructor. -/
structure RAtom where
  serial : Nat
  name : String
  coord : V3
  ad : Nat
  donor : Bool
  hydrophobic : Bool
deriving DecidableEq

/-- Sets the is-hydrogen-bond-donor flag (`atom::donorize` of atom.hpp). -/
def RAtom.donorize (a : RAtom) : RAtom :=
  ⟨a.serial, a.name, a.coord, a.ad, true, a.hydrophobic⟩

/-- Clears the hydrophobic flag (`atom::dehydrophobicize` of atom.hpp). -/
def RAtom.dehydrophobicize (a : RAtom) : RAtom :=
  ⟨a.serial, a.name, a.coord, a.ad, a.donor, false⟩

/-- One parsed line of the receptor PDBQT stream.  `atomLine` corresponds to an
ATOM/HETATM record that carries the residue tag (columns 23–26), the parsed AD
type and the parsed fields of the atom; `ter` to a TER record; `other` to any
other record. -/
inductive PdbqtLine where
  | atomLine (residue : String) (serial : Nat) (aname : String) (coord : V3) (ad : Nat)
  | ter
  | other
deriving DecidableEq

/-- Parser state of the receptor constructor: the atoms accumulated so far, the
current residue tag, and the index of the first atom of the current residue. -/
structure RecState where
  atoms : List RAtom
  residue : String
  residueStart : Nat
deriving DecidableEq

/-- The dummy residue tag the constructor starts from and resets to on TER. -/
def dummyResidue : String := "XXXX"

/-- Initial state of the receptor constructor (`atoms` empty, residue "XXXX"). -/
def recInit : RecState := ⟨[], dummyResidue, 0⟩

/-- Backward scan with break: donorize the last atom of the list satisfying the
predicate, or report failure.  This models the C++ loop
`for (i = atoms.size(); i > residue_start;) { b = atoms[--i]; if (pred) { b.donorize(); break; } }`
restricted to the scanned region. -/
def donorizeLast (p : RAtom → Bool) : List RAtom → Option (List RAtom)
  | [] => none
  | a :: rest =>
    match donorizeLast p rest with
    | some rest' => some (a :: rest')
    | none => if p a then some (a.donorize :: rest) else none

/-- Total version of `donorizeLast`: the list is unchanged when no atom
matches. -/
def donorizeLastD (p : RAtom → Bool) (l : List RAtom) : List RAtom :=
  (donorizeLast p l).getD l

section ReceptorBuild

-- het: the test `atom::is_hetero`, a function of the AD type only (atom.hpp, external).
variable (het : Nat → Bool)

-- nbr: the test `atom::is_neighbor`, a function of coordinates and types
-- (atom.hpp, external); `nbr b a` is `b.is_neighbor(a)`.
variable (nbr : RAtom → RAtom → Bool)

-- initHydro: initial hydrophobic flag assigned by the atom constructor, a
-- function of the AD type (atom.hpp, external).
variable (initHydro : Nat → Bool)

/-- The atom constructor call `atom(serial, name, coord, ad)` of receptor.cpp
line 44: flags start as not-donor and type-derived hydrophobicity. -/
def mkAtom (serial : Nat) (aname : String) (coord : V3) (ad : Nat) : RAtom :=
  ⟨serial, aname, coord, ad, false, initHydro ad⟩

/-- Processing of a single parsed line by the receptor constructor
(receptor.cpp lines 19–88), embedded over the parser state. -/
def recStep (st : RecState) (line : PdbqtLine) : RecState :=
  match line with
  | PdbqtLine.ter => ⟨st.atoms, dummyResidue, st.residueStart⟩
  | PdbqtLine.other => st
  | PdbqtLine.atomLine residue serial aname coord ad =>
    -- Residue-change detection (lines 26–33).
    let st1 : RecState :=
      if residue ≠ st.residue then ⟨st.atoms, residue, st.atoms.length⟩ else st
    -- Unknown AD type: the line is skipped (line 38).
    if ad = AD_TYPE_SIZE then st1
    -- Non-polar hydrogens are skipped (line 41).
    else if ad = AD_TYPE_H then st1
    else
      let a := mkAtom initHydro serial aname coord ad
      let region := st1.atoms.drop st1.residueStart
      let kept := st1.atoms.take st1.residueStart
      if ad = AD_TYPE_HD then
        -- Polar hydrogen: donorize the nearest preceding bonded hetero atom of
        -- the residue (lines 47–58), then fall through to the push_back of
        -- line 82.
        let region' := donorizeLastD (fun b => het b.ad && nbr b a) region
        ⟨kept ++ region' ++ [a], st1.residue, st1.residueStart⟩
      else if het a.ad then
        -- Hetero atom: dehydrophobicize every bonded carbon of the residue
        -- (lines 59–69, no break), then push_back.
        let region' := region.map fun b => if !het b.ad && nbr b a then b.dehydrophobicize else b
        ⟨kept ++ region' ++ [a], st1.residue, st1.residueStart⟩
      else
        -- Carbon atom: it loses its own hydrophobic flag if bonded to a hetero
        -- atom of the residue (lines 70–81), then push_back.
        let a' := if region.any (fun b => het b.ad && nbr b a) then a.dehydrophobicize else a
        ⟨kept ++ region ++ [a'], st1.residue, st1.residueStart⟩

/-- The receptor constructor's parsing phase (receptor.cpp lines 17–88): fold
`recStep` over the parsed line stream. -/
def buildReceptor (lines : List PdbqtLine) : RecState :=
  lines.foldl (recStep het nbr initHydro) recInit

/-- The atom sequence `receptor::atoms` produced from a parsed line stream. -/
def receptorAtoms (lines : List PdbqtLine) : List RAtom :=
  (buildReceptor het nbr initHydro lines).atoms

end ReceptorBuild

/-! Concrete instantiations of the external atom helpers, used by closed
evaluation theorems.  `hetC` calls every AD type other than H, HD and C
hetero; `nbrC` bonds atoms closer than 2 Å; `initHydroC` marks carbon
hydrophobic. -/

/-- Concrete hetero test for closed evaluations: C is code 2; H, HD, C are not
hetero. -/
def hetC : Nat → Bool := fun ad => decide (3 ≤ ad)

/-- Concrete neighbor test for closed evaluations, a stand-in for the external
covalent-distance test: bonded iff the serial numbers are consecutive. -/
def nbrC : RAtom → RAtom → Bool :=
  fun b a => decide (b.serial + 1 = a.serial) || decide (a.serial + 1 = b.serial)

/-- Concrete initial hydrophobicity for closed evaluations: carbon (code 2)
starts hydrophobic. -/
def initHydroC : Nat → Bool := fun ad => decide (ad = 2)

/-- Residue tag used by the concrete input streams below. -/
def resTag1 : String := "   1"

/-- Atom name used by the concrete hetero-atom lines below. -/
def nameOG : String := " OG "

/-- Atom name used by the concrete polar-hydrogen line below. -/
def nameHG : String := " HG "

/-- Failing input for claim C1: a hetero atom (AD code 7, say OA) at the
origin, then a polar hydrogen 1 Å away in the same residue. -/
def c1Lines : List PdbqtLine :=
  [PdbqtLine.atomLine resTag1 1 nameOG ⟨0, 0, 0⟩ 7,
   PdbqtLine.atomLine resTag1 2 nameHG ⟨1, 0, 0⟩ AD_TYPE_HD]

/-- Failing input for claim C2: a line whose AD type string is not in the table
(`parse_ad_type_string` returned `AD_TYPE_SIZE`), followed by a valid hetero
atom line. -/
def c2Lines : List PdbqtLine :=
  [PdbqtLine.atomLine resTag1 1 nameHG ⟨0, 0, 0⟩ AD_TYPE_SIZE,
   PdbqtLine.atomLine resTag1 2 nameOG ⟨3, 0, 0⟩ 7]

/-! ### Result type and the diversity result container (result.hpp)

The coordinate-set distance `distance_sqr` used for clustering lives in
array.hpp, which is not among the given sources; it enters as the parameter
`dsq`. -/

/-- A docking result (class `result` of result.hpp): free energy `e`,
inter-molecular free energy `f`, heavy-atom coordinates and hydrogen
coordinates.  The normalized energy `e_nd` is write-only driver output and is
omitted. -/
structure Res where
  e : ℚ
  f : ℚ
  heavy : List V3
  hydrogens : List V3
deriving DecidableEq

/-- Comparison `result::operator<`, ordering results by free energy. -/
def eLE (a b : Res) : Prop := a.e ≤ b.e

instance : DecidableRel eLE := fun a b => inferInstanceAs (Decidable (a.e ≤ b.e))

instance : IsTotal Res eLE := ⟨fun a b => le_total a.e b.e⟩

instance : IsTrans Res eLE := ⟨fun _ _ _ h1 h2 => le_trans h1 h2⟩

/-- The `results.sort()` call of result.hpp line 98, sorting by free energy
ascending.  The C++ sort's order on equal energies is unspecified; insertion
sort is one compliant refinement. -/
def sortByE (l : List Res) : List Res := List.insertionSort eLE l

section ResultContainer

-- dsq: the coordinate-set distance `distance_sqr` (array.hpp, external).
variable (dsq : List V3 → List V3 → ℚ)

/-- The scan of result.hpp lines 65–75: running over the remaining members
with the next index `i`, the best index `bi` and the best value `bv` so far,
keep the member with the smallest distance, preferring earlier indices on
ties (strict `<` update). -/
def findClosestAux (r : Res) : List Res → Nat → Nat → ℚ → Nat × ℚ
  | [], _, bi, bv => (bi, bv)
  | s :: rest, i, bi, bv =>
    let t := dsq r.heavy s.heavy
    if t < bv then findClosestAux r rest (i + 1) i t
    else findClosestAux r rest (i + 1) bi bv

/-- Index and squared deviation of the member of `s0 :: rest` closest to `r`
(result.hpp lines 65–75: `index = 0`, `best = distance_sqr(r, front)`, then
the scan from index 1). -/
def findClosest (r : Res) (s0 : Res) (rest : List Res) : Nat × ℚ :=
  findClosestAux dsq r rest 1 0 (dsq r.heavy s0.heavy)

/-- The clustering insertion `add_to_result_container` of result.hpp lines
55–99.  `capacity` is the container's reserved capacity K. -/
def add_to_result_container (capacity : Nat) (results : List Res) (r : Res)
    (required_square_error : ℚ) : List Res :=
  match results with
  | [] => [r]
  | s0 :: rest =>
    let S := s0 :: rest
    let ib := findClosest dsq r s0 rest
    let S' :=
      if ib.2 < required_square_error then
        -- The result r is very close to results[index] (lines 77–83).
        if r.e < (S.getD ib.1 s0).e then S.set ib.1 r else S
      else
        -- No similar result exists (lines 84–97).
        if S.length < capacity then S ++ [r]
        else if r.e < (S.getLastD s0).e then S.set (S.length - 1) r
        else S
    sortByE S'

end ResultContainer

/-! ### Tabulated scoring function (src/scoring_function.cpp)

The pairwise score itself uses `exp` and the external XS radius table, so it
enters the table-filling code as an abstract function `score : ℚ → ℚ` of the
squared distance, for one fixed type pair. -/

/-- Maximum pairwise interaction distance (scoring_function.cpp line 3). -/
def Cutoff : ℚ := 8

/-- Squared cutoff (scoring_function.cpp line 4). -/
def Cutoff_Sqr : ℚ := Cutoff * Cutoff

/-- Sampling granularity factor (scoring_function.cpp line 5). -/
def Factor : ℚ := 256

/-- Number of samples per type pair, `(size_t)(Factor * Cutoff_Sqr) + 1`
(scoring_function.cpp line 7); the cast truncates 16384.0 to 16384. -/
def Num_Samples : Nat := 16385

/-- One tabulated sample (`scoring_function_element`): the score value `e` and
the derivative-over-r `dor`. -/
structure SFElem where
  e : ℚ
  dor : ℚ
deriving DecidableEq

instance : Inhabited SFElem := ⟨⟨0, 0⟩⟩

/-- First loop of `scoring_function::precalculate` (lines 31–34): after `k`
iterations, `p[i].e = score(rs[i])` holds for every `i < k`. -/
def sfLoop1 (score : ℚ → ℚ) (rs : List ℚ) (p : List SFElem) : Nat → List SFElem
  | 0 => p
  | k + 1 =>
    let q := sfLoop1 score rs p k
    q.set k ⟨score (rs.getD k 0), (q.getD k default).dor⟩

/-- Second loop of `scoring_function::precalculate` (lines 37–40): after `k`
iterations, `p[i].dor` holds the backward difference quotient for every
`i` in `[1, k]`. -/
def sfLoop2 (rs : List ℚ) (p : List SFElem) : Nat → List SFElem
  | 0 => p
  | k + 1 =>
    let q := sfLoop2 rs p k
    q.set (k + 1) ⟨(q.getD (k + 1) default).e,
      ((q.getD (k + 2) default).e - (q.getD (k + 1) default).e) /
        ((rs.getD (k + 2) 0 - rs.getD (k + 1) 0) * rs.getD (k + 1) 0)⟩

/-- The endpoint writes `p.front().dor = 0; p.back().dor = 0` of
scoring_function.cpp lines 41–42: zero the dor of the first and of the last
entry, keeping their e values. -/
def setEndpoints (q : List SFElem) : List SFElem :=
  let q1 := q.set 0 ⟨(q.getD 0 default).e, 0⟩
  q1.set (q1.length - 1) ⟨(q1.getD (q1.length - 1) default).e, 0⟩

/-- The whole of `scoring_function::precalculate` (lines 25–43) for one type
pair: fill the `e` values, fill the interior `dor` values, then zero the two
endpoint `dor` values. -/
def precalculate (score : ℚ → ℚ) (rs : List ℚ) (p : List SFElem) : List SFElem :=
  setEndpoints (sfLoop2 rs (sfLoop1 score rs p Num_Samples) (Num_Samples - 2))

/-- The lookup `scoring_function::evaluate` (lines 45–49) on one type pair's
table: a single array access at index `(size_t)(Factor * r2)`; for
`0 ≤ r2` the size_t cast is the floor. -/
def sfEvaluate (table : List SFElem) (r2 : ℚ) : SFElem :=
  table.getD (⌊Factor * r2⌋).toNat default

/-! ### Monte Carlo / BFGS driver (src/monte_carlo_task.cpp)

The quaternion math of array.hpp (axis-angle constructor, Hamilton product,
normalization) and the ligand evaluator of ligand.cpp are not among the given
sources: they enter as abstract function parameters.  The task's RNG is
modelled as the stream `u : Nat → ℚ` of successive `uniform_11` draws; the
source consumes one draw for the initial position, four for the initial
orientation, one per active torsion, and three per outer iteration. -/

/-- Number of step lengths tried by the line search
(monte_carlo_task.cpp line 7). -/
def num_alphas : Nat := 5

/-- Number of outer Monte Carlo iterations (monte_carlo_task.cpp line 8). -/
def num_mc_iterations : Nat := 50

/-- The constant `pi` of monte_carlo_task.cpp line 12, as the exact rational
value of its decimal literal. -/
def piF : ℚ := 3.1415926535897932

/-- Raw quaternion components (the four doubles of `qtn4`); the quaternion
algebra itself is external math kept abstract. -/
structure Q4 where
  w : ℚ
  x : ℚ
  y : ℚ
  z : ℚ
deriving DecidableEq

/-- A ligand conformation (class `conformation` of result.hpp): position,
orientation, torsions. -/
structure Conf where
  position : V3
  orientation : Q4
  torsions : List ℚ
deriving DecidableEq

/-- Outputs of one `ligand::evaluate` call: the success flag returned by the
function and the values written through its out-parameters e, f, g. -/
structure EvalOut where
  ok : Bool
  e : ℚ
  f : ℚ
  g : List ℚ
deriving DecidableEq

/-- Retained state across outer Monte Carlo iterations: the retained
conformation c₀, its energy e₀, and the per-task result slot r. -/
structure MCState (σ : Type) where
  c0 : Conf
  e0 : ℚ
  r : σ
deriving DecidableEq

/-- State of the inner BFGS loop: current conformation c₁ with its energy e₁,
inter-molecular energy f₁ and gradient g₁, plus the packed inverse Hessian. -/
structure BState where
  c1 : Conf
  e1 : ℚ
  f1 : ℚ
  g1 : List ℚ
  h : List ℚ
deriving DecidableEq

/-- Result of an accepted line-search trial: the accepted step length and the
evaluated trial conformation c₂ with its e₂, f₂, g₂. -/
structure LSOut where
  alpha : ℚ
  c2 : Conf
  e2 : ℚ
  f2 : ℚ
  g2 : List ℚ
deriving DecidableEq

/-- Modelled from the spec: `triangular_matrix_restrictive_index(i, j)` for
`i ≤ j` — packed upper-triangular storage of matrix.hpp, which is not under
src/; the exact packing is immaterial to the claims. -/
def trIdx (i j : Nat) : Nat := i + j * (j + 1) / 2

/-- Modelled from the spec: `triangular_matrix_permissive_index(i, j)` swaps
the indices when `i > j` (matrix.hpp, not under src/). -/
def trPerm (i j : Nat) : Nat := if i ≤ j then trIdx i j else trIdx j i

section MonteCarlo

-- T: `lig.num_active_torsions`.
variable (T : Nat)

-- qaa: the axis-angle constructor `qtn4(vec3)` (array.hpp, external math).
variable (qaa : V3 → Q4)

-- qmul: the Hamilton product `qtn4 * qtn4` (array.hpp, external math).
variable (qmul : Q4 → Q4 → Q4)

-- qnorm: construction-and-normalization `qtn4(a,b,c,d).normalize()`
-- (array.hpp, external math).
variable (qnorm : Q4 → Q4)

-- evalFn: `lig.evaluate(c, sf, rec, bound, e, f, g)` (ligand.cpp, external):
-- from the conformation and the upper bound, the returned flag and outputs.
variable (evalFn : Conf → ℚ → EvalOut)

-- u: the stream of successive `uniform_11(eng)` draws.
variable (u : Nat → ℚ)

variable {σ : Type}

-- compose: `lig.compose_result(e, c)` (ligand.cpp, external).
variable (compose : ℚ → Conf → σ)

-- center, span: `rec.center` and `rec.span` of the receptor's box.
variable (center span : V3)

/-- Number of optimization variables, `6 + lig.num_active_torsions`
(monte_carlo_task.cpp line 10). -/
def nvar : Nat := 6 + T

/-- Conformation drop bound `e_upper_bound = 40 * lig.num_heavy_atoms`
(monte_carlo_task.cpp line 11). -/
def e_upper_bound (nHeavy : Nat) : ℚ := 40 * nHeavy

/-- The random initial conformation c₀ (monte_carlo_task.cpp lines 29–34):
position `center + u·span` with a single scalar draw, orientation from four
draws then normalized, one draw per torsion. -/
def randomStart : Conf :=
  ⟨center + u 0 • span,
   qnorm ⟨u 1, u 2, u 3, u 4⟩,
   (List.range T).map fun i => u (5 + i)⟩

/-- Evaluation of c₀ and seeding of the result slot (monte_carlo_task.cpp
lines 35–36).  The boolean returned by `lig.evaluate` is discarded; only the
out-parameters are read. -/
def mcInit (nHeavy : Nat) : MCState σ :=
  let c0 := randomStart T qnorm u center span
  let out := evalFn c0 (e_upper_bound nHeavy)
  ⟨c0, out.e, compose out.e c0⟩

/-- The position-only mutation of an outer iteration (monte_carlo_task.cpp
lines 63–65), consuming the three draws `u k, u (k+1), u (k+2)`. -/
def mutate (c0 : Conf) (k : Nat) : Conf :=
  ⟨c0.position + ⟨u k, u (k + 1), u (k + 2)⟩, c0.orientation, c0.torsions⟩

/-- Index of the first RNG draw of outer iteration `i`: the random start
consumes `5 + T` draws and every iteration consumes three. -/
def drawBase (i : Nat) : Nat := 5 + T + 3 * i

/-- Dot product over the `6 + T` optimization variables, as in the
accumulation loops of monte_carlo_task.cpp lines 88–90 and 113–115. -/
def dotN (p g : List ℚ) : ℚ :=
  ((List.range (nvar T)).map fun i => p.getD i 0 * g.getD i 0).sum

/-- The identity inverse Hessian (monte_carlo_task.cpp lines 50–52): packed
zero matrix with diagonal entries set to 1. -/
def hIdentity : List ℚ :=
  (List.range (nvar T)).foldl (fun m i => m.set (trIdx i i) 1)
    (List.replicate (nvar T * (nvar T + 1) / 2) 0)

/-- Descent direction `p = -h·g` (monte_carlo_task.cpp lines 79–85), using the
permissive packed index. -/
def pVec (h g : List ℚ) : List ℚ :=
  (List.range (nvar T)).map fun i =>
    -(((List.range (nvar T)).map fun j => h.getD (trPerm i j) 0 * g.getD j 0).sum)

/-- Construction of the trial conformation `c2 = c1 + ap`
(monte_carlo_task.cpp lines 99–106): the position moves by `α·(p₀,p₁,p₂)`, the
orientation is premultiplied by `qtn4(α·(p₃,p₄,p₅))`, and torsion `i` moves by
`α·p₆₊ᵢ` with no wrapping. -/
def buildC2 (c1 : Conf) (alpha : ℚ) (p : List ℚ) : Conf :=
  ⟨c1.position + alpha • ⟨p.getD 0 0, p.getD 1 0, p.getD 2 0⟩,
   qmul (qaa (alpha • ⟨p.getD 3 0, p.getD 4 0, p.getD 5 0⟩)) c1.orientation,
   (List.range T).map fun i => c1.torsions.getD i 0 + alpha * p.getD (6 + i) 0⟩

/-- The line-search loop body (monte_carlo_task.cpp lines 96–121) with `fuel`
remaining trials and current step length `alpha`: build c₂, evaluate it with
the Armijo upper bound, accept on success plus the curvature condition, else
shrink `alpha` by 0.1 and retry. -/
def lineSearchGo (c1 : Conf) (e1 : ℚ) (p : List ℚ) (pg1 : ℚ) :
    Nat → ℚ → Option LSOut
  | 0, _ => none
  | fuel + 1, alpha =>
    let c2 := buildC2 T qaa qmul c1 alpha p
    let out := evalFn c2 (e1 + 1 / 10000 * alpha * pg1)
    if out.ok && decide (9 / 10 * pg1 ≤ dotN T p out.g) then
      some ⟨alpha, c2, out.e, out.f, out.g⟩
    else lineSearchGo c1 e1 p pg1 fuel (alpha * (1 / 10))

/-- The full line search (monte_carlo_task.cpp lines 95–121): `alpha` starts
at 1 and at most `num_alphas` trials are made. -/
def lineSearch (c1 : Conf) (e1 : ℚ) (p : List ℚ) (pg1 : ℚ) : Option LSOut :=
  lineSearchGo T qaa qmul evalFn c1 e1 p pg1 num_alphas 1

/-- Upper-triangular index pairs `(i, j)` with `i ≤ j < n`, the iteration
domain of the Hessian update's double loop (monte_carlo_task.cpp
lines 144–148). -/
def pairsUpper (n : Nat) : List (Nat × Nat) :=
  (List.range n).flatMap fun i => ((List.range n).filter fun j => i ≤ j).map fun j => (i, j)

/-- One inner BFGS iteration (monte_carlo_task.cpp lines 76–155): descent
direction, line search (`none` means the break of line 124), then the rank-two
Hessian update and the advance to the accepted trial point. -/
def bfgsStep (st : BState) : Option BState :=
  let p := pVec T st.h st.g1
  let pg1 := dotN T p st.g1
  match lineSearch T qaa qmul evalFn st.c1 st.e1 p pg1 with
  | none => none
  | some out =>
    let y := (List.range (nvar T)).map fun i => out.g2.getD i 0 - st.g1.getD i 0
    let mhy := (List.range (nvar T)).map fun i =>
      -(((List.range (nvar T)).map fun j => st.h.getD (trPerm i j) 0 * y.getD j 0).sum)
    let yhy := -(dotN T y mhy)
    let yp := dotN T y p
    let ryp := 1 / yp
    let pco := ryp * (ryp * yhy + out.alpha)
    let h' := (pairsUpper (nvar T)).foldl (fun m ij =>
      m.set (trIdx ij.1 ij.2)
        (m.getD (trIdx ij.1 ij.2) 0 +
          ryp * (mhy.getD ij.1 0 * p.getD ij.2 0 + mhy.getD ij.2 0 * p.getD ij.1 0) +
          pco * p.getD ij.1 0 * p.getD ij.2 0)) st.h
    some ⟨out.c2, out.e2, out.f2, out.g2, h'⟩

/-- The inner BFGS loop (`while (true)` of monte_carlo_task.cpp lines 76–155),
run for at most `fuel` iterations; it stops early exactly when the line search
fails to accept a step length. -/
def bfgsLoop : Nat → BState → BState
  | 0, st => st
  | fuel + 1, st =>
    match bfgsStep T qaa qmul evalFn st with
    | none => st
    | some st' => bfgsLoop fuel st'

/-- Entry state of the inner BFGS loop for outer iteration `i`
(monte_carlo_task.cpp lines 63–69): the mutated conformation c₁, the values
written by its evaluation — the returned boolean is discarded — and the
identity Hessian. -/
def bfgsEntry (nHeavy : Nat) (st : MCState σ) (i : Nat) : BState :=
  let c1 := mutate u st.c0 (drawBase T i)
  let out := evalFn c1 (e_upper_bound nHeavy)
  ⟨c1, out.e, out.f, out.g, hIdentity T⟩

/-- One outer Monte Carlo iteration (monte_carlo_task.cpp lines 60–166):
mutate, evaluate, locally optimize with BFGS, then accept by the
improvement-only Metropolis criterion of lines 157–165. -/
def outerIter (nHeavy fuel : Nat) (st : MCState σ) (i : Nat) : MCState σ :=
  let st1 := bfgsLoop T qaa qmul evalFn fuel (bfgsEntry T evalFn u nHeavy st i)
  if st1.e1 < st.e0 then ⟨st1.c1, st1.e1, compose st1.e1 st1.c1⟩ else st

/-- The state after `k` outer Monte Carlo iterations, starting from the seeded
initial state; the driver runs `num_mc_iterations = 50` of them. -/
def mcRun (nHeavy fuel : Nat) : Nat → MCState σ
  | 0 => mcInit T qnorm evalFn u compose center span nHeavy
  | k + 1 => outerIter T qaa qmul evalFn u compose nHeavy fuel
      (mcRun nHeavy fuel k) k

end MonteCarlo

/-! ### Spec-side description of the line search, for the refinement theorem -/

section LineSearchSpec

variable (T : Nat) (qaa : V3 → Q4) (qmul : Q4 → Q4 → Q4) (evalFn : Conf → ℚ → EvalOut)

/-- Step length of trial `k` as listed by the spec: 1, 0.1, 0.01, 0.001,
0.0001. -/
def trialAlpha (k : Nat) : ℚ := (1 / 10) ^ k

/-- Acceptance test of trial `k` following the spec's words: the evaluation
with upper bound `e₁ + 0.0001·α·(p·g₁)` succeeds and `p·g₂ ≥ 0.9·(p·g₁)`. -/
def trialAccept (c1 : Conf) (e1 : ℚ) (p : List ℚ) (pg1 : ℚ) (k : Nat) : Bool :=
  let alpha := trialAlpha k
  let out := evalFn (buildC2 T qaa qmul c1 alpha p) (e1 + 1 / 10000 * alpha * pg1)
  out.ok && decide (9 / 10 * pg1 ≤ dotN T p out.g)

/-- The data an accepted trial `k` leaves behind: its step length, the trial
conformation and the evaluation outputs. -/
def trialData (c1 : Conf) (e1 : ℚ) (p : List ℚ) (pg1 : ℚ) (k : Nat) : LSOut :=
  let alpha := trialAlpha k
  let c2 := buildC2 T qaa qmul c1 alpha p
  let out := evalFn c2 (e1 + 1 / 10000 * alpha * pg1)
  ⟨alpha, c2, out.e, out.f, out.g⟩

end LineSearchSpec

/-- The wrapped-torsion interval `[−π, π)` asserted by the spec, with π taken
as the source's own `pi` constant (monte_carlo_task.cpp line 12). -/
def inPiRange (x : ℚ) : Prop := -piF ≤ x ∧ x < piF

/-! ### Concrete instantiations of the external parameters, for the closed
evaluation theorems -/

/-- Concrete axis-angle quaternion constructor (identity), for closed
evaluations; the claims under test do not depend on the quaternion algebra. -/
def qaaC : V3 → Q4 := fun _ => ⟨1, 0, 0, 0⟩

/-- Concrete quaternion product (right projection), for closed evaluations. -/
def qmulC : Q4 → Q4 → Q4 := fun _ b => b

/-- Concrete quaternion normalization (identity map), for closed
evaluations. -/
def qnormC : Q4 → Q4 := fun q => q

/-- Concrete evaluator whose evaluation always fails the upper-bound test and
writes zeros, for closed evaluations. -/
def evalFalse : Conf → ℚ → EvalOut := fun _ _ => ⟨false, 0, 0, []⟩

/-- Concrete all-zero draw stream, for closed evaluations. -/
def uZero : Nat → ℚ := fun _ => 0

/-- Concrete conformation with one torsion of value 3, input of the C4
counterexample. -/
def cOne : Conf := ⟨⟨0, 0, 0⟩, ⟨1, 0, 0, 0⟩, [3]⟩

/-- Concrete descent direction whose only nonzero component is torsion
component p₆ = 3, input of the C4 counterexample. -/
def pSeven : List ℚ := [0, 0, 0, 0, 0, 0, 3]

/-- Concrete result-composition function (pairing), for closed evaluations. -/
def composeC : ℚ → Conf → ℚ × Conf := fun e c => (e, c)

/-- Concrete coordinate-set distance (constant 9), for closed evaluations of
the result container. -/
def dsqC : List V3 → List V3 → ℚ := fun _ _ => 9

/-- Concrete result with free energy −5, for the C3 witness. -/
def resA : Res := ⟨-5, 0, [⟨0, 0, 0⟩], []⟩

/-- Concrete result with free energy −4, for the C3 witness. -/
def resB : Res := ⟨-4, 0, [⟨3, 0, 0⟩], []⟩

/-! ### Remaining spec-side and witness-input definitions -/

section LineSearchSpecLoop

variable (T : Nat) (qaa : V3 → Q4) (qmul : Q4 → Q4 → Q4) (evalFn : Conf → ℚ → EvalOut)

/-- Modelled from the spec's line-search description, for the refinement
theorem: starting at trial `k`, with `fuel` trials remaining, return the data
of the first accepted trial, or `none` when every remaining trial is
rejected. -/
def lsSpecGo (c1 : Conf) (e1 : ℚ) (p : List ℚ) (pg1 : ℚ) : Nat → Nat → Option LSOut
  | 0, _ => none
  | fuel + 1, k =>
    if trialAccept T qaa qmul evalFn c1 e1 p pg1 k then
      some (trialData T qaa qmul evalFn c1 e1 p pg1 k)
    else lsSpecGo c1 e1 p pg1 fuel (k + 1)

/-- Modelled from the spec's line-search description: the first accepted trial
among trials 0 … num_alphas−1 (step lengths 1, 0.1, 0.01, 0.001, 0.0001 in
that order), `none` when no trial is accepted. -/
def lsSpec (c1 : Conf) (e1 : ℚ) (p : List ℚ) (pg1 : ℚ) : Option LSOut :=
  lsSpecGo T qaa qmul evalFn c1 e1 p pg1 num_alphas 0

end LineSearchSpecLoop

/-- Concrete draw stream that differs from `uZero` everywhere except at
draw 0, witness input showing the initial position depends on the stream only
through draw 0. -/
def uDelta : Nat → ℚ := fun k => if k = 0 then 0 else 1

/-- Concrete BFGS state with no torsions, zero gradient and empty Hessian,
witness input for the inner-loop break. -/
def bZero : BState := ⟨⟨⟨0, 0, 0⟩, ⟨1, 0, 0, 0⟩, []⟩, 0, 0, [], []⟩

/-! ## Theorems -/

/-- Componentwise description of vector addition. -/
theorem V3.add_def (a b : V3) : a + b = ⟨a.x + b.x, a.y + b.y, a.z + b.z⟩ := rfl

/-- Componentwise description of vector subtraction. -/
theorem V3.sub_def (a b : V3) : a - b = ⟨a.x - b.x, a.y - b.y, a.z - b.z⟩ := rfl

/-- Componentwise description of scalar multiplication. -/
theorem V3.smul_def (c : ℚ) (v : V3) : c • v = ⟨c * v.x, c * v.y, c * v.z⟩ := rfl

/-- C1: the claim asserts that `receptor::atoms` holds heavy atoms only — in
particular that an atom of polar-hydrogen type AD_TYPE_HD is never appended.
On the stream `c1Lines` (a hetero atom followed by a bonded polar hydrogen of
the same residue) the constructor does donorize the preceding hetero atom, yet
it also appends the polar hydrogen itself: the final atom sequence has the AD
types `[7, AD_TYPE_HD]` and only its first member carries the donor flag.
This evaluates the code at the failing input of the code-bug report. -/
theorem C1_polar_hydrogen_stored :
    (receptorAtoms hetC nbrC initHydroC c1Lines).map (fun a => a.ad) = [7, AD_TYPE_HD] ∧
    (receptorAtoms hetC nbrC initHydroC c1Lines).map (fun a => a.donor) = [true, false] := by
  decide

/-- C2: the claim asserts that an input line whose AD type string is not in
the table makes the receptor constructor raise a parse error and stop.  On the
stream `c2Lines` (an unknown-type line followed by a valid hetero-atom line)
the constructor — whose embedding is a total function precisely because
receptor.cpp line 38 merely executes `continue` — skips the unknown-type line
and finishes normally, ingesting the later atom.  This evaluates the code at
the failing input of the code-bug report. -/
theorem C2_unknown_ad_type_skipped :
    (receptorAtoms hetC nbrC initHydroC c2Lines).map (fun a => a.ad) = [7] ∧
    (receptorAtoms hetC nbrC initHydroC c2Lines).length = 1 := by
  decide

/-- C8: the outer Monte Carlo mutation changes only the position, adding the
vector of three successive draws; the orientation quaternion and the torsions
of the mutated conformation equal those of the retained conformation, both for
`mutate` itself and for the mutated conformation entering the inner BFGS
loop. -/
theorem C8_mutation_position_only (u : Nat → ℚ) (c0 : Conf) (k : Nat)
    (T nHeavy : Nat) (evalFn : Conf → ℚ → EvalOut) {σ : Type} (st : MCState σ) (i : Nat) :
    (mutate u c0 k).orientation = c0.orientation ∧
    (mutate u c0 k).torsions = c0.torsions ∧
    (mutate u c0 k).position = c0.position + ⟨u k, u (k + 1), u (k + 2)⟩ ∧
    (bfgsEntry T evalFn u nHeavy st i).c1.orientation = st.c0.orientation ∧
    (bfgsEntry T evalFn u nHeavy st i).c1.torsions = st.c0.torsions ∧
    (bfgsEntry T evalFn u nHeavy st i).c1.position
      = st.c0.position + ⟨u (drawBase T i), u (drawBase T i + 1), u (drawBase T i + 2)⟩ :=
  ⟨rfl, rfl, rfl, rfl, rfl, rfl⟩

/-- C9: the random start draws a single scalar `u 0` and multiplies the whole
span vector by it, so the initial position is `center + u 0 • span`, lies on
the diagonal segment through the box center (its offset components are fully
correlated), and depends on the draw stream only through draw 0 — not on three
independent per-component draws. -/
theorem C9_initial_position_single_draw (T : Nat) (qnorm : Q4 → Q4)
    (u u' : Nat → ℚ) (center span : V3) :
    (randomStart T qnorm u center span).position = center + u 0 • span ∧
    (∃ t : ℚ, (randomStart T qnorm u center span).position = center + t • span) ∧
    ((randomStart T qnorm u center span).position - center).x * span.y
      = ((randomStart T qnorm u center span).position - center).y * span.x ∧
    ((randomStart T qnorm u center span).position - center).y * span.z
      = ((randomStart T qnorm u center span).position - center).z * span.y ∧
    (u 0 = u' 0 →
      (randomStart T qnorm u' center span).position
        = (randomStart T qnorm u center span).position) := by
  refine ⟨rfl, ⟨u 0, rfl⟩, ?_, ?_, ?_⟩
  · simp only [randomStart, V3.add_def, V3.sub_def, V3.smul_def]
    ring
  · simp only [randomStart, V3.add_def, V3.sub_def, V3.smul_def]
    ring
  · intro h
    simp only [randomStart, h]

/-- C9 witness: the theorem applied at the concrete streams `uDelta` and
`uZero`, which agree on draw 0 only. -/
theorem C9_initial_position_single_draw_witness :
    (randomStart 0 qnormC uZero ⟨0, 0, 0⟩ ⟨1, 1, 1⟩).position
      = (randomStart 0 qnormC uDelta ⟨0, 0, 0⟩ ⟨1, 1, 1⟩).position :=
  (C9_initial_position_single_draw 0 qnormC uDelta uZero ⟨0, 0, 0⟩ ⟨1, 1, 1⟩).2.2.2.2 rfl

/-- C10: `monte_carlo_task` ignores the boolean returned by `lig.evaluate` at
the initial evaluation and at each mutation evaluation.  Even when the
evaluation reports failure of the `e_upper_bound` test, the result slot is
seeded with `compose_result(e₀, c₀)` from the written values, the BFGS entry
state is built from the written e₁, f₁, g₁, and both are unchanged under any
modification of the evaluator that alters only its returned flag. -/
theorem C10_evaluate_flag_ignored (T : Nat) (qnorm : Q4 → Q4)
    (evalFn evalFn' : Conf → ℚ → EvalOut) (u : Nat → ℚ) {σ : Type}
    (compose : ℚ → Conf → σ) (center span : V3) (nHeavy : Nat)
    (st : MCState σ) (i : Nat) :
    ((evalFn (randomStart T qnorm u center span) (e_upper_bound nHeavy)).ok = false →
      mcInit T qnorm evalFn u compose center span nHeavy =
        ⟨randomStart T qnorm u center span,
         (evalFn (randomStart T qnorm u center span) (e_upper_bound nHeavy)).e,
         compose ((evalFn (randomStart T qnorm u center span) (e_upper_bound nHeavy)).e)
           (randomStart T qnorm u center span)⟩) ∧
    ((evalFn (mutate u st.c0 (drawBase T i)) (e_upper_bound nHeavy)).ok = false →
      bfgsEntry T evalFn u nHeavy st i =
        ⟨mutate u st.c0 (drawBase T i),
         (evalFn (mutate u st.c0 (drawBase T i)) (e_upper_bound nHeavy)).e,
         (evalFn (mutate u st.c0 (drawBase T i)) (e_upper_bound nHeavy)).f,
         (evalFn (mutate u st.c0 (drawBase T i)) (e_upper_bound nHeavy)).g,
         hIdentity T⟩) ∧
    ((∀ c b, (evalFn c b).e = (evalFn' c b).e ∧ (evalFn c b).f = (evalFn' c b).f ∧
        (evalFn c b).g = (evalFn' c b).g) →
      mcInit T qnorm evalFn u compose center span nHeavy
        = mcInit T qnorm evalFn' u compose center span nHeavy ∧
      bfgsEntry T evalFn u nHeavy st i = bfgsEntry T evalFn' u nHeavy st i) := by
  refine ⟨fun _ => rfl, fun _ => rfl, fun h => ⟨?_, ?_⟩⟩
  · simp only [mcInit, (h _ _).1]
  · simp only [bfgsEntry, (h _ _).1, (h _ _).2.1, (h _ _).2.2]

/-- C10 witness: the theorem applied with the always-rejecting evaluator
`evalFalse`; the result slot is still seeded from its written energy. -/
theorem C10_evaluate_flag_ignored_witness :
    mcInit 0 qnormC evalFalse uZero composeC ⟨0, 0, 0⟩ ⟨1, 1, 1⟩ 5 =
      ⟨randomStart 0 qnormC uZero ⟨0, 0, 0⟩ ⟨1, 1, 1⟩,
       (evalFalse (randomStart 0 qnormC uZero ⟨0, 0, 0⟩ ⟨1, 1, 1⟩) (e_upper_bound 5)).e,
       composeC ((evalFalse (randomStart 0 qnormC uZero ⟨0, 0, 0⟩ ⟨1, 1, 1⟩) (e_upper_bound 5)).e)
         (randomStart 0 qnormC uZero ⟨0, 0, 0⟩ ⟨1, 1, 1⟩)⟩ :=
  (C10_evaluate_flag_ignored 0 qnormC evalFalse evalFalse uZero composeC
    ⟨0, 0, 0⟩ ⟨1, 1, 1⟩ 5 ⟨⟨⟨0, 0, 0⟩, ⟨1, 0, 0, 0⟩, []⟩, 0, (0, ⟨⟨0, 0, 0⟩, ⟨1, 0, 0, 0⟩, []⟩)⟩ 0).1 rfl

/-- C6: across the outer Monte Carlo iterations the retained energy e₀ is
non-increasing; one outer iteration updates the retained conformation, the
retained energy and the result slot exactly when the locally optimized energy
is strictly better (`e₁ < e₀`), and otherwise leaves the whole state — result
slot included — unchanged; on an update the slot holds the composed result of
the new retained energy and conformation, and iteration `k` of the run is
exactly `outerIter` applied to the state after `k` iterations. -/
theorem C6_metropolis_accepts_only_better (T : Nat) (qaa : V3 → Q4)
    (qmul : Q4 → Q4 → Q4) (qnorm : Q4 → Q4) (evalFn : Conf → ℚ → EvalOut)
    (u : Nat → ℚ) {σ : Type} (compose : ℚ → Conf → σ) (center span : V3)
    (nHeavy fuel k : Nat) (st : MCState σ) (i : Nat) :
    (outerIter T qaa qmul evalFn u compose nHeavy fuel st i =
      if (bfgsLoop T qaa qmul evalFn fuel (bfgsEntry T evalFn u nHeavy st i)).e1 < st.e0
      then ⟨(bfgsLoop T qaa qmul evalFn fuel (bfgsEntry T evalFn u nHeavy st i)).c1,
            (bfgsLoop T qaa qmul evalFn fuel (bfgsEntry T evalFn u nHeavy st i)).e1,
            compose (bfgsLoop T qaa qmul evalFn fuel (bfgsEntry T evalFn u nHeavy st i)).e1
              (bfgsLoop T qaa qmul evalFn fuel (bfgsEntry T evalFn u nHeavy st i)).c1⟩
      else st) ∧
    (outerIter T qaa qmul evalFn u compose nHeavy fuel st i).e0 ≤ st.e0 ∧
    (outerIter T qaa qmul evalFn u compose nHeavy fuel st i = st ∨
      ((outerIter T qaa qmul evalFn u compose nHeavy fuel st i).e0 < st.e0 ∧
       (outerIter T qaa qmul evalFn u compose nHeavy fuel st i).r
         = compose (outerIter T qaa qmul evalFn u compose nHeavy fuel st i).e0
             (outerIter T qaa qmul evalFn u compose nHeavy fuel st i).c0)) ∧
    (mcRun T qaa qmul qnorm evalFn u compose center span nHeavy fuel (k + 1)
      = outerIter T qaa qmul evalFn u compose nHeavy fuel
          (mcRun T qaa qmul qnorm evalFn u compose center span nHeavy fuel k) k) ∧
    (mcRun T qaa qmul qnorm evalFn u compose center span nHeavy fuel (k + 1)).e0
      ≤ (mcRun T qaa qmul qnorm evalFn u compose center span nHeavy fuel k).e0 := by
  have hmono : ∀ (st' : MCState σ) (i' : Nat),
      (outerIter T qaa qmul evalFn u compose nHeavy fuel st' i').e0 ≤ st'.e0 := by
    intro st' i'
    simp only [outerIter]
    split
    · exact le_of_lt (by assumption)
    · exact le_refl _
  refine ⟨rfl, hmono st i, ?_, rfl, ?_⟩
  · simp only [outerIter]
    split
    · exact Or.inr ⟨by assumption, rfl⟩
    · exact Or.inl rfl
  · exact hmono _ k

/-- Helper: the source's line-search loop, which carries the current step
length and shrinks it by 0.1 on every rejection, computes the first accepted
trial in the sense of the spec-side description, provided the carried step
length is the trial value `(1/10)^k` of the current trial index. -/
theorem lineSearchGo_eq_lsSpecGo (T : Nat) (qaa : V3 → Q4) (qmul : Q4 → Q4 → Q4)
    (evalFn : Conf → ℚ → EvalOut) (c1 : Conf) (e1 : ℚ) (p : List ℚ) (pg1 : ℚ) :
    ∀ (fuel k : Nat) (alpha : ℚ), alpha = trialAlpha k →
      lineSearchGo T qaa qmul evalFn c1 e1 p pg1 fuel alpha
        = lsSpecGo T qaa qmul evalFn c1 e1 p pg1 fuel k := by
  intro fuel
  induction fuel with
  | zero => intro k alpha h; rfl
  | succ n ih =>
    intro k alpha h
    subst h
    have hs : trialAlpha k * (1 / 10) = trialAlpha (k + 1) := by
      rw [trialAlpha, trialAlpha, pow_succ]
    simp only [lineSearchGo, lsSpecGo, trialAccept, trialData]
    rw [hs, ih (k + 1) _ rfl]

/-- C4 (amended): in every BFGS inner iteration the line search tries at most
`num_alphas = 5` step lengths α = 1, 0.1, 0.01, 0.001, 0.0001 in that order
and returns the data of the first accepted trial; a trial builds c₂ from c₁ by
adding α·(p₀,p₁,p₂) to the position, premultiplying the orientation by
`qtn4(α·(p₃,p₄,p₅))`, and adding α·p₆₊ᵢ to each torsion with no wrapping; a
trial is accepted exactly when the evaluation with upper bound
`e₁ + 0.0001·α·(p·g₁)` succeeds and `p·g₂ ≥ 0.9·(p·g₁)`; and if no trial is
accepted the inner BFGS loop terminates at the current state. -/
theorem C4_line_search_first_accepted (T : Nat) (qaa : V3 → Q4)
    (qmul : Q4 → Q4 → Q4) (evalFn : Conf → ℚ → EvalOut) (c1 : Conf) (e1 : ℚ)
    (p : List ℚ) (pg1 alpha : ℚ) (k : Nat) (st : BState) (fuel : Nat) :
    lineSearch T qaa qmul evalFn c1 e1 p pg1 = lsSpec T qaa qmul evalFn c1 e1 p pg1 ∧
    num_alphas = 5 ∧
    trialAlpha 0 = 1 ∧ trialAlpha 1 = 1 / 10 ∧ trialAlpha 2 = 1 / 100 ∧
    trialAlpha 3 = 1 / 1000 ∧ trialAlpha 4 = 1 / 10000 ∧
    (buildC2 T qaa qmul c1 alpha p).position
      = c1.position + alpha • ⟨p.getD 0 0, p.getD 1 0, p.getD 2 0⟩ ∧
    (buildC2 T qaa qmul c1 alpha p).orientation
      = qmul (qaa (alpha • ⟨p.getD 3 0, p.getD 4 0, p.getD 5 0⟩)) c1.orientation ∧
    (buildC2 T qaa qmul c1 alpha p).torsions
      = (List.range T).map (fun i => c1.torsions.getD i 0 + alpha * p.getD (6 + i) 0) ∧
    trialAccept T qaa qmul evalFn c1 e1 p pg1 k
      = ((evalFn (buildC2 T qaa qmul c1 (trialAlpha k) p)
            (e1 + 1 / 10000 * trialAlpha k * pg1)).ok
          && decide (9 / 10 * pg1
              ≤ dotN T p (evalFn (buildC2 T qaa qmul c1 (trialAlpha k) p)
                  (e1 + 1 / 10000 * trialAlpha k * pg1)).g)) ∧
    (lineSearch T qaa qmul evalFn st.c1 st.e1 (pVec T st.h st.g1)
        (dotN T (pVec T st.h st.g1) st.g1) = none →
      bfgsLoop T qaa qmul evalFn (fuel + 1) st = st) := by
  refine ⟨?_, rfl, ?_, ?_, ?_, ?_, ?_, rfl, rfl, rfl, rfl, ?_⟩
  · exact lineSearchGo_eq_lsSpecGo T qaa qmul evalFn c1 e1 p pg1 num_alphas 0 1 (by
      rw [trialAlpha, pow_zero])
  · rw [trialAlpha, pow_zero]
  · rw [trialAlpha, pow_one]
  · rw [trialAlpha]; norm_num
  · rw [trialAlpha]; norm_num
  · rw [trialAlpha]; norm_num
  · intro h
    have hs : bfgsStep T qaa qmul evalFn st = none := by
      simp only [bfgsStep]
      rw [h]
    simp only [bfgsLoop]
    rw [hs]

/-- C4 counterexample: the claim as stated says a line-search trial wraps each
updated torsion to `[−π, π)`.  At the concrete first trial (α = 1) from the
conformation `cOne` with torsion 3 and descent direction `pSeven` with torsion
component 3, the constructed trial conformation carries torsion 6, which lies
outside `[−π, π)` for the source's own `pi` constant: no wrapping is
applied. -/
theorem C4_counterexample_torsion_not_wrapped :
    (buildC2 1 qaaC qmulC cOne 1 pSeven).torsions = [6] ∧ ¬ inPiRange 6 := by
  constructor
  · simp [buildC2, cOne, pSeven, List.range_succ]
    norm_num
  · intro hr
    have h2 := hr.2
    rw [piF] at h2
    norm_num at h2

/-- C4 witness: the theorem applied at the all-rejecting evaluator and the
empty BFGS state; every trial fails, and the inner BFGS loop stops
immediately. -/
theorem C4_line_search_first_accepted_witness :
    bfgsLoop 0 qaaC qmulC evalFalse 1 bZero = bZero :=
  (C4_line_search_first_accepted 0 qaaC qmulC evalFalse bZero.c1 bZero.e1 [] 0 1 0
    bZero 0).2.2.2.2.2.2.2.2.2.2.2 rfl

/-- Helper: reading a written position of a list. -/
theorem getD_set_self {α : Type} (l : List α) (i : Nat) (a d : α) (h : i < l.length) :
    (l.set i a).getD i d = a := by
  rw [List.getD_eq_getElem _ _ (by simpa using h)]
  exact List.getElem_set_self (by simpa using h)

/-- Helper: reading an untouched position of a list. -/
theorem getD_set_ne {α : Type} (l : List α) (i j : Nat) (a d : α) (h : i ≠ j) :
    (l.set i a).getD j d = l.getD j d := by
  by_cases hj : j < l.length
  · rw [List.getD_eq_getElem _ _ (by simpa using hj), List.getD_eq_getElem _ _ hj]
    exact List.getElem_set_ne h _
  · rw [List.getD_eq_default _ _ (by simpa using Nat.le_of_not_lt hj),
      List.getD_eq_default _ _ (Nat.le_of_not_lt hj)]

/-- Helper: the scan of result.hpp lines 65–75 returns the first index
attaining the minimum distance, given accumulator invariants over the already
scanned prefix. -/
theorem findClosestAux_spec (dsq : List V3 → List V3 → ℚ) (r dflt : Res)
    (S : List Res) :
    ∀ (rest : List Res) (i0 bi : Nat) (bv : ℚ),
      rest = S.drop i0 → bi < i0 → bi < S.length →
      bv = dsq r.heavy ((S.getD bi dflt).heavy) →
      (∀ j, j < i0 → bv ≤ dsq r.heavy ((S.getD j dflt).heavy)) →
      (∀ j, j < bi → bv < dsq r.heavy ((S.getD j dflt).heavy)) →
      (findClosestAux dsq r rest i0 bi bv).1 < S.length ∧
      (findClosestAux dsq r rest i0 bi bv).2
        = dsq r.heavy ((S.getD (findClosestAux dsq r rest i0 bi bv).1 dflt).heavy) ∧
      (∀ j, j < S.length →
        (findClosestAux dsq r rest i0 bi bv).2 ≤ dsq r.heavy ((S.getD j dflt).heavy)) ∧
      (∀ j, j < (findClosestAux dsq r rest i0 bi bv).1 →
        (findClosestAux dsq r rest i0 bi bv).2 < dsq r.heavy ((S.getD j dflt).heavy)) := by
  intro rest
  induction rest with
  | nil =>
    intro i0 bi bv hrest hbii0 hbiS hbv hmin hfirst
    have hlen : S.length ≤ i0 := List.drop_eq_nil_iff.mp hrest.symm
    exact ⟨hbiS, hbv, fun j hj => hmin j (Nat.lt_of_lt_of_le hj hlen), hfirst⟩
  | cons s rest' ih =>
    intro i0 bi bv hrest hbii0 hbiS hbv hmin hfirst
    have hi0 : i0 < S.length := by
      by_contra hle
      rw [List.drop_eq_nil_iff.mpr (Nat.le_of_not_lt hle)] at hrest
      exact List.cons_ne_nil _ _ hrest
    rw [List.drop_eq_getElem_cons hi0] at hrest
    have hs : s = S[i0] := (List.cons.injEq _ _ _ _ ▸ hrest).1
    have hrest' : rest' = S.drop (i0 + 1) := (List.cons.injEq _ _ _ _ ▸ hrest).2
    have hSgetD : S.getD i0 dflt = s := by rw [List.getD_eq_getElem _ _ hi0, hs]
    simp only [findClosestAux]
    split
    · -- the scanned member is strictly closer: the index advances to i0
      rename_i ht
      refine ih (i0 + 1) i0 (dsq r.heavy s.heavy) hrest' (Nat.lt_succ_self _) hi0
        (by rw [hSgetD]) ?_ ?_
      · intro j hj
        rcases Nat.lt_succ_iff_lt_or_eq.mp hj with hj' | hj'
        · exact le_of_lt (lt_of_lt_of_le ht (hmin j hj'))
        · subst hj'; rw [hSgetD]
      · intro j hj
        exact lt_of_lt_of_le ht (hmin j hj)
    · -- not closer: the accumulator is kept
      rename_i ht
      refine ih (i0 + 1) bi bv hrest' (Nat.lt_succ_of_lt hbii0) hbiS hbv ?_ hfirst
      intro j hj
      rcases Nat.lt_succ_iff_lt_or_eq.mp hj with hj' | hj'
      · exact hmin j hj'
      · subst hj'; rw [hSgetD]; exact le_of_not_lt ht

/-- C3: on a non-empty container `s0 :: rest` of capacity K, the clustering
insertion finds the first index i* minimizing the squared deviation from r;
when that deviation is below the threshold τ it replaces the member at i*
exactly when r improves on it and otherwise leaves the container unchanged;
when the deviation is at least τ it appends r while below capacity, replaces
the last (worst) member when full and r improves on it, and otherwise leaves
the container unchanged; the result is always sorted ascending by free energy
and never exceeds the capacity. -/
theorem C3_add_to_result_container_clusters (dsq : List V3 → List V3 → ℚ)
    (K : Nat) (τ : ℚ) (s0 : Res) (rest : List Res) (r : Res)
    (hsorted : List.Sorted eLE (s0 :: rest)) (hK : (s0 :: rest).length ≤ K) :
    (findClosest dsq r s0 rest).1 < (s0 :: rest).length ∧
    (findClosest dsq r s0 rest).2
      = dsq r.heavy (((s0 :: rest).getD (findClosest dsq r s0 rest).1 s0).heavy) ∧
    (∀ j, j < (s0 :: rest).length →
      (findClosest dsq r s0 rest).2 ≤ dsq r.heavy (((s0 :: rest).getD j s0).heavy)) ∧
    (∀ j, j < (findClosest dsq r s0 rest).1 →
      (findClosest dsq r s0 rest).2 < dsq r.heavy (((s0 :: rest).getD j s0).heavy)) ∧
    ((findClosest dsq r s0 rest).2 < τ →
      r.e < ((s0 :: rest).getD (findClosest dsq r s0 rest).1 s0).e →
      add_to_result_container dsq K (s0 :: rest) r τ
        = sortByE ((s0 :: rest).set (findClosest dsq r s0 rest).1 r)) ∧
    ((findClosest dsq r s0 rest).2 < τ →
      ¬ r.e < ((s0 :: rest).getD (findClosest dsq r s0 rest).1 s0).e →
      add_to_result_container dsq K (s0 :: rest) r τ = s0 :: rest) ∧
    (¬ (findClosest dsq r s0 rest).2 < τ →
      (s0 :: rest).length < K →
      add_to_result_container dsq K (s0 :: rest) r τ = sortByE ((s0 :: rest) ++ [r])) ∧
    (¬ (findClosest dsq r s0 rest).2 < τ →
      ¬ (s0 :: rest).length < K →
      r.e < ((s0 :: rest).getLastD s0).e →
      add_to_result_container dsq K (s0 :: rest) r τ
        = sortByE ((s0 :: rest).set ((s0 :: rest).length - 1) r)) ∧
    (¬ (findClosest dsq r s0 rest).2 < τ →
      ¬ (s0 :: rest).length < K →
      ¬ r.e < ((s0 :: rest).getLastD s0).e →
      add_to_result_container dsq K (s0 :: rest) r τ = s0 :: rest) ∧
    List.Sorted eLE (add_to_result_container dsq K (s0 :: rest) r τ) ∧
    (add_to_result_container dsq K (s0 :: rest) r τ).length ≤ K := by
  have hfc := findClosestAux_spec dsq r s0 (s0 :: rest) rest 1 0
    (dsq r.heavy s0.heavy) rfl Nat.one_pos (Nat.succ_pos _) rfl
    (fun j hj => by interval_cases j; exact le_refl _)
    (fun j hj => absurd hj (Nat.not_lt_zero j))
  have hsort_id : sortByE (s0 :: rest) = s0 :: rest :=
    List.Sorted.insertionSort_eq hsorted
  refine ⟨hfc.1, hfc.2.1, hfc.2.2.1, hfc.2.2.2, ?_, ?_, ?_, ?_, ?_, ?_, ?_⟩
  · intro h1 h2
    simp only [add_to_result_container]
    rw [if_pos h1, if_pos h2]
  · intro h1 h2
    simp only [add_to_result_container]
    rw [if_pos h1, if_neg h2, hsort_id]
  · intro h1 h2
    simp only [add_to_result_container]
    rw [if_neg h1, if_pos h2]
  · intro h1 h2 h3
    simp only [add_to_result_container]
    rw [if_neg h1, if_neg h2, if_pos h3]
  · intro h1 h2 h3
    simp only [add_to_result_container]
    rw [if_neg h1, if_neg h2, if_neg h3, hsort_id]
  · exact List.sorted_insertionSort eLE _
  · simp only [add_to_result_container, sortByE]
    rw [List.length_insertionSort]
    split
    · split
      · rw [List.length_set]; exact hK
      · exact hK
    · split
      · rename_i hlt
        simpa using Nat.succ_le_of_lt hlt
      · split
        · rw [List.length_set]; exact hK
        · exact hK

/-- C3 witness: the theorem applied to the singleton container `[resA]` with
capacity 3 and threshold 4; the container's size stays within capacity. -/
theorem C3_add_to_result_container_clusters_witness :
    (add_to_result_container dsqC 3 [resA] resB 4).length ≤ 3 :=
  (C3_add_to_result_container_clusters dsqC 3 4 resA [] resB
    (List.sorted_singleton resA) (by decide)).2.2.2.2.2.2.2.2.2.2

/-- Helper: the e-filling loop preserves the table length. -/
theorem sfLoop1_length (score : ℚ → ℚ) (rs : List ℚ) (p : List SFElem) (k : Nat) :
    (sfLoop1 score rs p k).length = p.length := by
  induction k with
  | zero => rfl
  | succ n ih => simp only [sfLoop1]; rw [List.length_set, ih]

/-- Helper: after `k` iterations of the e-filling loop, every entry below `k`
holds the sampled score with its dor untouched, and every other entry is
unchanged. -/
theorem sfLoop1_getD (score : ℚ → ℚ) (rs : List ℚ) (p : List SFElem) (k : Nat) :
    ∀ j, j < p.length →
      (sfLoop1 score rs p k).getD j default
        = if j < k then ⟨score (rs.getD j 0), (p.getD j default).dor⟩
          else p.getD j default := by
  induction k with
  | zero =>
    intro j _
    rw [if_neg (Nat.not_lt_zero j)]
    rfl
  | succ n ih =>
    intro j hj
    simp only [sfLoop1]
    by_cases hjk : j = n
    · subst hjk
      rw [getD_set_self _ _ _ _ (by rw [sfLoop1_length]; exact hj)]
      rw [if_pos (Nat.lt_succ_self j)]
      rw [ih j hj, if_neg (lt_irrefl j)]
    · rw [getD_set_ne _ _ _ _ _ (fun h => hjk h.symm)]
      rw [ih j hj]
      by_cases h2 : j < n
      · rw [if_pos h2, if_pos (by omega)]
      · rw [if_neg h2, if_neg (by omega)]

/-- Helper: the dor-filling loop preserves the table length. -/
theorem sfLoop2_length (rs : List ℚ) (p : List SFElem) (k : Nat) :
    (sfLoop2 rs p k).length = p.length := by
  induction k with
  | zero => rfl
  | succ n ih => simp only [sfLoop2]; rw [List.length_set, ih]

/-- Helper: after `k` iterations of the dor-filling loop, every e value is
unchanged, every entry with index in `[1, k]` holds the backward difference
quotient of the incoming e values, and every other dor is unchanged. -/
theorem sfLoop2_getD (rs : List ℚ) (p : List SFElem) :
    ∀ (k : Nat), k + 2 ≤ p.length → ∀ j, j < p.length →
      ((sfLoop2 rs p k).getD j default).e = (p.getD j default).e ∧
      ((sfLoop2 rs p k).getD j default).dor
        = if 1 ≤ j ∧ j ≤ k then
            ((p.getD (j + 1) default).e - (p.getD j default).e) /
              ((rs.getD (j + 1) 0 - rs.getD j 0) * rs.getD j 0)
          else (p.getD j default).dor := by
  intro k
  induction k with
  | zero =>
    intro _ j _
    refine ⟨rfl, ?_⟩
    rw [if_neg (by omega)]
    rfl
  | succ n ih =>
    intro hk j hj
    have hk' : n + 2 ≤ p.length := by omega
    have hqe1 : ((sfLoop2 rs p n).getD (n + 1) default).e = (p.getD (n + 1) default).e :=
      (ih hk' (n + 1) (by omega)).1
    have hqe2 : ((sfLoop2 rs p n).getD (n + 2) default).e = (p.getD (n + 2) default).e :=
      (ih hk' (n + 2) (by omega)).1
    simp only [sfLoop2]
    by_cases hjn : j = n + 1
    · subst hjn
      rw [getD_set_self _ _ _ _ (by rw [sfLoop2_length]; omega)]
      refine ⟨hqe1, ?_⟩
      rw [if_pos ⟨by omega, le_refl _⟩, hqe1, hqe2]
    · rw [getD_set_ne _ _ _ _ _ (fun h => hjn h.symm)]
      obtain ⟨ihe, ihdor⟩ := ih hk' j hj
      refine ⟨ihe, ?_⟩
      rw [ihdor]
      by_cases hcase : 1 ≤ j ∧ j ≤ n
      · rw [if_pos hcase, if_pos ⟨hcase.1, by omega⟩]
      · rw [if_neg hcase, if_neg (by omega)]

/-- Helper: the endpoint writes preserve the table length. -/
theorem setEndpoints_length (q : List SFElem) : (setEndpoints q).length = q.length := by
  simp only [setEndpoints]
  rw [List.length_set, List.length_set]

/-- Helper: the endpoint writes preserve every e value. -/
theorem setEndpoints_getD_e (q : List SFElem) (i : Nat) (hi : i < q.length) :
    ((setEndpoints q).getD i default).e = (q.getD i default).e := by
  simp only [setEndpoints]
  rw [List.length_set]
  by_cases hlast : i = q.length - 1
  · subst hlast
    rw [getD_set_self _ _ _ _ (by rw [List.length_set]; omega)]
    by_cases h0 : q.length - 1 = 0
    · rw [h0, getD_set_self _ _ _ _ (by omega)]
    · rw [getD_set_ne _ _ _ _ _ (fun h => h0 h.symm)]
  · rw [getD_set_ne _ _ _ _ _ (fun h => hlast h.symm)]
    by_cases h0 : i = 0
    · subst h0
      rw [getD_set_self _ _ _ _ (by omega)]
    · rw [getD_set_ne _ _ _ _ _ (fun h => h0 h.symm)]

/-- Helper: the endpoint writes zero the first dor. -/
theorem setEndpoints_getD_dor_zero (q : List SFElem) (h2 : 2 ≤ q.length) :
    ((setEndpoints q).getD 0 default).dor = 0 := by
  simp only [setEndpoints]
  rw [List.length_set]
  rw [getD_set_ne _ _ _ _ _ (by omega : q.length - 1 ≠ 0)]
  rw [getD_set_self _ _ _ _ (by omega)]

/-- Helper: the endpoint writes zero the last dor. -/
theorem setEndpoints_getD_dor_last (q : List SFElem) (h1 : 1 ≤ q.length) :
    ((setEndpoints q).getD (q.length - 1) default).dor = 0 := by
  simp only [setEndpoints]
  rw [List.length_set]
  rw [getD_set_self _ _ _ _ (by rw [List.length_set]; omega)]

/-- Helper: the endpoint writes keep every interior dor. -/
theorem setEndpoints_getD_dor_mid (q : List SFElem) (i : Nat) (h1 : 1 ≤ i)
    (h2 : i < q.length - 1) :
    ((setEndpoints q).getD i default).dor = (q.getD i default).dor := by
  simp only [setEndpoints]
  rw [List.length_set]
  rw [getD_set_ne _ _ _ _ _ (by omega : q.length - 1 ≠ i)]
  rw [getD_set_ne _ _ _ _ _ (by omega : (0 : Nat) ≠ i)]

/-- Helper: the assembled table has Num_Samples entries. -/
theorem precalculate_length (score : ℚ → ℚ) (rs : List ℚ) (p : List SFElem)
    (hp : p.length = Num_Samples) :
    (precalculate score rs p).length = Num_Samples := by
  simp only [precalculate]
  rw [setEndpoints_length, sfLoop2_length, sfLoop1_length, hp]

/-- Helper: every e entry of the assembled table is the score sampled at the
matching grid point. -/
theorem precalculate_getD_e (score : ℚ → ℚ) (rs : List ℚ) (p : List SFElem)
    (hp : p.length = Num_Samples) (i : Nat) (hi : i < Num_Samples) :
    ((precalculate score rs p).getD i default).e = score (rs.getD i 0) := by
  have hN : (2 : Nat) ≤ Num_Samples := by norm_num [Num_Samples]
  have hp1len := sfLoop1_length score rs p Num_Samples
  have hQlen : (sfLoop2 rs (sfLoop1 score rs p Num_Samples) (Num_Samples - 2)).length
      = p.length := by rw [sfLoop2_length, hp1len]
  simp only [precalculate]
  rw [setEndpoints_getD_e _ i (by rw [hQlen]; omega)]
  have h := (sfLoop2_getD rs (sfLoop1 score rs p Num_Samples) (Num_Samples - 2)
    (by rw [hp1len]; omega) i (by rw [hp1len]; omega)).1
  rw [h, sfLoop1_getD score rs p Num_Samples i (by omega), if_pos (by omega)]

/-- Helper: every interior dor entry of the assembled table is the backward
difference quotient of the sampled scores. -/
theorem precalculate_getD_dor_mid (score : ℚ → ℚ) (rs : List ℚ) (p : List SFElem)
    (hp : p.length = Num_Samples) (i : Nat) (h1 : 1 ≤ i) (h2 : i + 1 < Num_Samples) :
    ((precalculate score rs p).getD i default).dor
      = (score (rs.getD (i + 1) 0) - score (rs.getD i 0)) /
          ((rs.getD (i + 1) 0 - rs.getD i 0) * rs.getD i 0) := by
  have hN : (2 : Nat) ≤ Num_Samples := by norm_num [Num_Samples]
  have hp1len := sfLoop1_length score rs p Num_Samples
  have hQlen : (sfLoop2 rs (sfLoop1 score rs p Num_Samples) (Num_Samples - 2)).length
      = p.length := by rw [sfLoop2_length, hp1len]
  simp only [precalculate]
  rw [setEndpoints_getD_dor_mid _ i h1 (by rw [hQlen]; omega)]
  have h := (sfLoop2_getD rs (sfLoop1 score rs p Num_Samples) (Num_Samples - 2)
    (by rw [hp1len]; omega) i (by rw [hp1len]; omega)).2
  rw [h, if_pos ⟨h1, by omega⟩]
  rw [sfLoop1_getD score rs p Num_Samples i (by omega), if_pos (by omega)]
  rw [sfLoop1_getD score rs p Num_Samples (i + 1) (by omega), if_pos (by omega)]

/-- Helper: the first dor entry of the assembled table is zero. -/
theorem precalculate_getD_dor_zero (score : ℚ → ℚ) (rs : List ℚ) (p : List SFElem)
    (hp : p.length = Num_Samples) :
    ((precalculate score rs p).getD 0 default).dor = 0 := by
  have hN : (2 : Nat) ≤ Num_Samples := by norm_num [Num_Samples]
  have hp1len := sfLoop1_length score rs p Num_Samples
  have hQlen : (sfLoop2 rs (sfLoop1 score rs p Num_Samples) (Num_Samples - 2)).length
      = p.length := by rw [sfLoop2_length, hp1len]
  simp only [precalculate]
  exact setEndpoints_getD_dor_zero _ (by rw [hQlen]; omega)

/-- Helper: the last dor entry of the assembled table is zero. -/
theorem precalculate_getD_dor_last (score : ℚ → ℚ) (rs : List ℚ) (p : List SFElem)
    (hp : p.length = Num_Samples) :
    ((precalculate score rs p).getD (Num_Samples - 1) default).dor = 0 := by
  have hN : (2 : Nat) ≤ Num_Samples := by norm_num [Num_Samples]
  have hp1len := sfLoop1_length score rs p Num_Samples
  have hQlen : (sfLoop2 rs (sfLoop1 score rs p Num_Samples) (Num_Samples - 2)).length
      = p.length := by rw [sfLoop2_length, hp1len]
  have hidx : Num_Samples - 1
      = (sfLoop2 rs (sfLoop1 score rs p Num_Samples) (Num_Samples - 2)).length - 1 := by
    rw [hQlen, hp]
  simp only [precalculate]
  rw [hidx]
  exact setEndpoints_getD_dor_last _ (by rw [hQlen]; omega)

/-- C5: for every type pair's score function and every sample grid of length
Num_Samples = 16385, `precalculate` fills `e[i] = score(rs[i])` for all
`i < Num_Samples`, fills `dor[i] = (e[i+1] − e[i]) / ((rs[i+1] − rs[i])·rs[i])`
for every interior index `i ∈ [1, Num_Samples−1)`, and zeroes `dor` at index 0
and at index Num_Samples − 1. -/
theorem C5_precalculate_fills_table (score : ℚ → ℚ) (rs : List ℚ) (p : List SFElem)
    (hp : p.length = Num_Samples) (hrs : rs.length = Num_Samples) :
    (precalculate score rs p).length = Num_Samples ∧
    (∀ i, i < Num_Samples →
      ((precalculate score rs p).getD i default).e = score (rs.getD i 0)) ∧
    (∀ i, 1 ≤ i → i < Num_Samples - 1 →
      ((precalculate score rs p).getD i default).dor
        = (((precalculate score rs p).getD (i + 1) default).e
            - ((precalculate score rs p).getD i default).e) /
          ((rs.getD (i + 1) 0 - rs.getD i 0) * rs.getD i 0)) ∧
    ((precalculate score rs p).getD 0 default).dor = 0 ∧
    ((precalculate score rs p).getD (Num_Samples - 1) default).dor = 0 := by
  have hN : (2 : Nat) ≤ Num_Samples := by norm_num [Num_Samples]
  refine ⟨precalculate_length score rs p hp,
    fun i hi => precalculate_getD_e score rs p hp i hi, ?_,
    precalculate_getD_dor_zero score rs p hp,
    precalculate_getD_dor_last score rs p hp⟩
  intro i h1 h2
  rw [precalculate_getD_dor_mid score rs p hp i h1 (by omega)]
  rw [precalculate_getD_e score rs p hp i (by omega),
    precalculate_getD_e score rs p hp (i + 1) (by omega)]

/-- C5 witness: the theorem applied to the identity score on the all-zero grid
and a default-initialized table of the correct length; the first dor entry of
the result is zero. -/
theorem C5_precalculate_fills_table_witness :
    ((precalculate (fun r => r) (List.replicate Num_Samples 0)
        (List.replicate Num_Samples default)).getD 0 default).dor = 0 :=
  (C5_precalculate_fills_table (fun r => r) (List.replicate Num_Samples 0)
    (List.replicate Num_Samples default) (by simp) (by simp)).2.2.2.1

/-- C7: for every squared distance `0 ≤ r² ≤ Cutoff² = 64` the lookup index
`⌊Factor·r²⌋ = ⌊256·r²⌋` of `scoring_function::evaluate` is strictly below
Num_Samples = 16385; at `r² = Cutoff²` exactly it equals Num_Samples − 1; and
on the table built over the grid `rs[i] = i / Factor` the lookup at
`r² = Cutoff²` returns `e = score(Cutoff²)`. -/
theorem C7_evaluate_lookup_in_bounds (score : ℚ → ℚ) (p : List SFElem) (r2 : ℚ)
    (h0 : 0 ≤ r2) (hc : r2 ≤ Cutoff_Sqr) (hp : p.length = Num_Samples) :
    (⌊Factor * r2⌋).toNat < Num_Samples ∧
    (r2 = Cutoff_Sqr → (⌊Factor * r2⌋).toNat = Num_Samples - 1) ∧
    (sfEvaluate (precalculate score
        ((List.range Num_Samples).map fun i : Nat => (i : ℚ) / Factor) p) Cutoff_Sqr).e
      = score Cutoff_Sqr := by
  have hmul : Factor * r2 ≤ 16384 := by
    have h := mul_le_mul_of_nonneg_left hc (by norm_num [Factor] : (0 : ℚ) ≤ Factor)
    have heq : Factor * Cutoff_Sqr = 16384 := by norm_num [Factor, Cutoff_Sqr, Cutoff]
    rw [heq] at h
    exact h
  have hfl : ⌊Factor * r2⌋ ≤ 16384 := by
    have h := Int.floor_le_floor hmul
    rwa [show ⌊(16384 : ℚ)⌋ = 16384 by norm_num] at h
  have hcut : (⌊Factor * Cutoff_Sqr⌋).toNat = 16384 := by
    have heq : Factor * Cutoff_Sqr = 16384 := by norm_num [Factor, Cutoff_Sqr, Cutoff]
    rw [heq, show ⌊(16384 : ℚ)⌋ = 16384 by norm_num]
    rfl
  refine ⟨?_, ?_, ?_⟩
  · rw [show Num_Samples = 16385 from rfl]
    omega
  · intro h
    subst h
    rw [hcut, show Num_Samples = 16385 from rfl]
  · rw [sfEvaluate, hcut]
    rw [precalculate_getD_e score _ p hp 16384 (by norm_num [Num_Samples])]
    have hgrid : ((List.range Num_Samples).map fun i : Nat => (i : ℚ) / Factor).getD 16384 0
        = (16384 : ℚ) / Factor := by
      rw [List.getD_eq_getElem _ _
        (by rw [List.length_map, List.length_range]; norm_num [Num_Samples])]
      rw [List.getElem_map, List.getElem_range]
      norm_num
    rw [hgrid, show (16384 : ℚ) / Factor = Cutoff_Sqr by norm_num [Factor, Cutoff_Sqr, Cutoff]]

/-- C7 witness: the theorem applied at `r² = Cutoff²` with the identity score
and a default-initialized table; the lookup index is exactly
Num_Samples − 1. -/
theorem C7_evaluate_lookup_in_bounds_witness :
    (⌊Factor * Cutoff_Sqr⌋).toNat = Num_Samples - 1 :=
  (C7_evaluate_lookup_in_bounds (fun r => r) (List.replicate Num_Samples default)
    Cutoff_Sqr (mul_self_nonneg Cutoff) (le_refl _) (by simp)).2.1 rfl
